import Mathlib

/-!
Shallow embedding of the vocoder training framework
(src/models/framework.py): the training loop driver, the checkpoint
codec, the validation runner and the sample generator, together with
proofs of its observable properties.
-/

/-- Frequency of scalar loss logging (constant LOG_FREQUENCY in the source). -/
def LOG_FREQUENCY : Nat := 10

/-- Frequency of validation plus checkpointing (constant EVAL_FREQUENCY). -/
def EVAL_FREQUENCY : Nat := 5000

/-- Frequency of tensorboard sample generation (constant GENERATE_FREQUENCY). -/
def GENERATE_FREQUENCY : Nat := 100000

/-- Number of tensorboard samples drawn (constant GENERATE_NUM_SAMPLES). -/
def GENERATE_NUM_SAMPLES : Nat := 2

/-- Observable events of one training run of train_loop.  The lap event is
the Completed-epoch notice printed by repeat_training_data_forever; the
trainStep event marks a call reaching model.train_step; the stepDone event
records the value of the global step counter right after its increment;
logScalar, validate, save and genSamples record the frequency-gated
actions of the loop body with the step at which they fire; nanExit marks
the hard_exit(1) taken on a NaN loss. -/
inductive Event where
  | lap
  | trainStep
  | stepDone (gs : Nat)
  | logScalar (gs : Nat)
  | nanExit
  | validate (gs : Nat)
  | save (gs : Nat)
  | genSamples (gs : Nat)
  deriving DecidableEq, Repr

/-- Result of a run of the training loop: normal completion (exit 0 after a
final save), a NaN halt (hard_exit(1)), or exhaustion of the modelling
fuel (the source loop has no fuel; fuelOut never corresponds to a real
behaviour and theorems exclude it). -/
inductive RunResult where
  | normal
  | nanHalt
  | fuelOut
  deriving DecidableEq, Repr

/-- Mutable state of train_loop: the model's global step counter and the
number of batches drawn so far from the recycling iterator. -/
structure LoopState where
  gs : Nat
  drawn : Nat
  deriving DecidableEq, Repr

/-- Exit status of the process for a given run result: hard_exit(1) on a
NaN loss, status 0 on normal completion. -/
def exitStatus : RunResult → Option Nat
  | .normal => some 0
  | .nanHalt => some 1
  | .fuelOut => none

/-- Lap notice of repeat_training_data_forever: when the next batch is
requested after the finite stream of length len has been exhausted, the
generator prints the Completed-epoch notice and restarts the stream.
drawn is the number of batches drawn so far. -/
def lapEv (len drawn : Nat) : List Event :=
  if drawn ≠ 0 ∧ drawn % len = 0 then [Event.lap] else []

/-- Scalar loss emission, gated on LOG_FREQUENCY. -/
def logEv (gs : Nat) : List Event :=
  if gs % LOG_FREQUENCY = 0 then [Event.logScalar gs] else []

/-- Validation plus checkpoint save, gated on EVAL_FREQUENCY. -/
def evalEv (gs : Nat) : List Event :=
  if gs % EVAL_FREQUENCY = 0 then [Event.validate gs, Event.save gs] else []

/-- Tensorboard sample generation, gated on GENERATE_FREQUENCY. -/
def genEv (gs : Nat) : List Event :=
  if gs % GENERATE_FREQUENCY = 0 then [Event.genSamples gs] else []

/-- One run of train_loop, as a fuelled step function.  Parameters:
done is model.is_done() as a function of the global step; nan tells
whether the loss returned by the k-th training step (the step that moves
the counter to k) is NaN; len is the length of the finite training batch
stream recycled by repeat_training_data_forever.  Returns the run result,
the trace of observable events, and the final global step.  Mirrors, in
order, the loop body of the source: draw a batch (emitting the lap notice
when the underlying stream restarts), call train_step, increment the
global step, log every LOG_FREQUENCY steps, hard-exit on a NaN loss,
validate and save every EVAL_FREQUENCY steps, generate samples every
GENERATE_FREQUENCY steps; on loop exit, perform one final save. -/
def runLoop : Nat → (Nat → Bool) → (Nat → Bool) → Nat → LoopState →
    RunResult × List Event × Nat
  | 0, _, _, _, s => (.fuelOut, [], s.gs)
  | fuel + 1, done, nan, len, s =>
    if done s.gs then
      (.normal, [Event.save s.gs], s.gs)
    else
      if nan (s.gs + 1) then
        (.nanHalt, lapEv len s.drawn ++
          [Event.trainStep, Event.stepDone (s.gs + 1)] ++ logEv (s.gs + 1) ++
          [Event.nanExit], s.gs + 1)
      else
        let rest := runLoop fuel done nan len ⟨s.gs + 1, s.drawn + 1⟩
        (rest.1, lapEv len s.drawn ++
          [Event.trainStep, Event.stepDone (s.gs + 1)] ++ logEv (s.gs + 1) ++
          evalEv (s.gs + 1) ++ genEv (s.gs + 1) ++ rest.2.1, rest.2.2)

/-- Number of calls that reach model.train_step in a trace. -/
def trainCount : List Event → Nat
  | [] => 0
  | Event.trainStep :: t => trainCount t + 1
  | _ :: t => trainCount t

/-- Step-counter values recorded at each completed training step. -/
def stepTags (t : List Event) : List Nat :=
  t.filterMap (fun e => match e with | .stepDone g => some g | _ => none)

/-- Steps at which checkpoints are written during a run. -/
def saveTags (t : List Event) : List Nat :=
  t.filterMap (fun e => match e with | .save g => some g | _ => none)

/-- Number of lap-completion notices in a trace. -/
def lapCount : List Event → Nat
  | [] => 0
  | Event.lap :: t => lapCount t + 1
  | _ :: t => lapCount t

/-- Numeric value held in a tensor cell: a rational number or a NaN. -/
inductive FVal where
  | num (q : ℚ)
  | nan
  deriving DecidableEq, Repr

/-- Tensor, modelled as its flat list of cells. -/
abbrev Tensor := List FVal

/-- Test for torch.any(torch.isnan(tensor)). -/
def Tensor.hasNaN (t : Tensor) : Bool :=
  t.any (fun v => match v with | .nan => true | _ => false)

/-- State dict: an ordered mapping from names to tensors. -/
abbrev StateDict := List (String × Tensor)

/-- Whether any tensor of a state dict contains a NaN cell. -/
def StateDict.anyNaN (d : StateDict) : Bool :=
  d.any (fun kv => kv.2.hasNaN)

/-- Serializable state of a Vocoder model, as produced by state_dict():
the registered global_step_buffer together with the remaining parameters
and buffers. -/
structure ModelState where
  global_step_buffer : Nat
  params : StateDict
  deriving DecidableEq, Repr

/-- Live trainable entity: its model state and the list returned by
get_optimizers(), each element an optimizer (represented by its state
dict) paired with an optional scheduler (likewise). -/
structure Entity where
  modelState : ModelState
  optPairs : List (StateDict × Option StateDict)
  deriving DecidableEq, Repr

/-- Checkpoint record written by save_model: the model state dict, the
per-optimizer state dicts, and the per-scheduler state dicts (None when a
pair has no scheduler). -/
structure Checkpoint where
  model : ModelState
  optimizers : List StateDict
  lr_schedulers : List (Option StateDict)
  deriving DecidableEq, Repr

/-- Construction of the checkpoint record in save_model: collect the
model's state dict and, for each (opt, sched) pair of get_optimizers(),
opt.state_dict() and sched.state_dict() or None.  The move of every
tensor to host memory is observationally the identity here since the
embedding carries no device tag. -/
def save_model (e : Entity) : Checkpoint :=
  { model := e.modelState,
    optimizers := e.optPairs.map (fun p => p.1),
    lr_schedulers := e.optPairs.map (fun p => p.2) }

/-- Restoration of the optimizer/scheduler pairs performed by the zip
loop of load_model_from_checkpoint.  zip truncates to the shortest of the
three lists, so pairs beyond the common length keep their current state
and extra checkpointed states are ignored.  Within the zip,
opt.load_state_dict(opt_dict) replaces the optimizer state; the scheduler
state is replaced only when the live pair has a scheduler, and passing it
None (sched.load_state_dict(None)) raises, modelled as failure. -/
def restorePairs : List (StateDict × Option StateDict) → List StateDict →
    List (Option StateDict) → Option (List (StateDict × Option StateDict))
  | [], _, _ => some []
  | ps, [], _ => some ps
  | ps, _, [] => some ps
  | (_, none) :: ps, o :: os, _ :: sds =>
    (restorePairs ps os sds).map (fun r => (o, none) :: r)
  | (_, some _) :: ps, o :: os, some s :: sds =>
    (restorePairs ps os sds).map (fun r => (o, some s) :: r)
  | (_, some _) :: _, _ :: _, none :: _ => none

/-- Restoration of an entity from a checkpoint record: fail on a NaN
found in any model tensor (the integrity assert); model.load_state_dict
(strict) requires the same parameter keys and replaces the whole model
state, global_step_buffer included; then restore optimizer/scheduler
pairs positionally via the zip loop. -/
def load_model_from_checkpoint (e : Entity) (c : Checkpoint) :
    Option Entity :=
  if c.model.params.anyNaN then none
  else if c.model.params.map Prod.fst ≠ e.modelState.params.map Prod.fst then
    none
  else
    match restorePairs e.optPairs c.optimizers c.lr_schedulers with
    | none => none
    | some pairs => some { modelState := c.model, optPairs := pairs }

/-- Fixed-width decimal representation with k digits, most significant
first: the digit list of n % 10 ^ k, as in the Python format f-string
with 08d padding (faithful for n < 10 ^ k). -/
def padDigits : Nat → Nat → List Nat
  | 0, _ => []
  | k + 1, n => n / 10 ^ k % 10 :: padDigits k n

/-- File name (its significant digit part) of the checkpoint written by
save_model: the 8-digit zero-padded global step. -/
def save_path (e : Entity) : List Nat :=
  padDigits 8 e.modelState.global_step_buffer

/-- File names of the checkpoints written during a run of the loop. -/
def ckptNames (t : List Event) : List (List Nat) :=
  (saveTags t).map (padDigits 8)

/-- Strict lexicographic comparison of digit strings, as Python compares
the file names returned by glob. -/
def lexLtB : List Nat → List Nat → Bool
  | [], [] => false
  | [], _ :: _ => true
  | _ :: _, [] => false
  | a :: as, b :: bs =>
    if a < b then true else if b < a then false else lexLtB as bs

/-- Reflexive lexicographic comparison of digit strings. -/
def lexLeB : List Nat → List Nat → Bool
  | [], _ => true
  | _ :: _, [] => false
  | a :: as, b :: bs =>
    if a < b then true else if b < a then false else lexLeB as bs

/-- Propositional form of the lexicographic order used for sorting. -/
def lexLe (a b : List Nat) : Prop := lexLeB a b = true

instance : DecidableRel lexLe :=
  fun a b => inferInstanceAs (Decidable (lexLeB a b = true))

/-- Model of last_checkpoint_path: the checkpoint directory holds one
file per saved step, named by the 8-digit padded step; sorted() orders
the names lexicographically and the last one is returned, or None when
the directory is empty or absent. -/
def last_checkpoint_path (steps : List Nat) : Option (List Nat) :=
  (List.insertionSort lexLe (steps.map (padDigits 8))).getLast?

/-- Audio record written to the tensorboard writer by add_audio. -/
structure AudioRecord where
  tag : String
  wav : Tensor
  step : Nat
  deriving DecidableEq, Repr

/-- Tag of the ground-truth record for sample idx. -/
def realTag (idx : Nat) : String := "audio/" ++ toString idx ++ "_real"

/-- Tag of the synthesized record for sample idx. -/
def synthTag (idx : Nat) : String :=
  "audio/" ++ toString idx ++ "_synthesized"

/-- Model of generate_tensorboard_samples: draw n_samples batches from a
fresh iterator over the dataloader (batch i of the stream), generate one
waveform per drawn spectrogram, then for each generated waveform write
the ground-truth waveform too when the global step is 0, and always the
synthesized one. -/
def generate_tensorboard_samples (gs : Nat) (gen : Tensor → Tensor)
    (data : Nat → Tensor × Tensor) (n_samples : Nat) : List AudioRecord :=
  ((((List.range n_samples).map data).map (fun b => gen b.1)).enum).flatMap
    (fun p =>
      (if gs = 0 then
        [⟨realTag p.1,
          (((List.range n_samples).map data).getD p.1 ([], [])).2, gs⟩]
      else []) ++ [⟨synthTag p.1, p.2, gs⟩])

/-- Losses returned by model.validation_losses for one batch: an ordered
mapping from loss name to scalar value. -/
abbrev LossDict := List (String × ℚ)

/-- Dictionary access batch_losses[key]; total with default 0, which is
never exercised when the key is present (as the runner assumes). -/
def lookupLoss (k : String) (d : LossDict) : ℚ :=
  ((d.find? (fun kv => kv.1 == k)).map Prod.snd).getD 0

/-- Comparison of strings by the lexicographic order of their code
points, as Python compares the loss-key strings. -/
def strLe (a b : String) : Prop :=
  lexLeB (a.data.map Char.toNat) (b.data.map Char.toNat) = true

instance : DecidableRel strLe :=
  fun a b => inferInstanceAs (Decidable (lexLeB _ _ = true))

/-- Ascending sort of the loss keys, as Python sorted() on strings. -/
def sortStrings (l : List String) : List String :=
  List.insertionSort strLe l

/-- Model of compute_validation_metrics: run validation_losses over every
batch of the validation loader; if there are no batches, emit nothing;
otherwise, for every key of the first batch's result in ascending order,
emit under the valid/ namespace the arithmetic mean over the batches
(torch.mean of the stacked scalars). -/
def compute_validation_metrics (batches : List (Tensor × Tensor))
    (vloss : Tensor × Tensor → LossDict) : List (String × ℚ) :=
  let losses := batches.map vloss
  match losses with
  | [] => []
  | first :: _ =>
    (sortStrings (first.map Prod.fst)).map (fun k =>
      ("valid/" ++ k, (losses.map (lookupLoss k)).sum / (losses.length : ℚ)))

/-! Basic facts about traces. -/

theorem trainCount_append (l₁ l₂ : List Event) :
    trainCount (l₁ ++ l₂) = trainCount l₁ + trainCount l₂ := by
  induction l₁ with
  | nil => simp [trainCount]
  | cons e t ih => cases e <;> simp [trainCount, ih] <;> omega

@[simp]
theorem trainCount_lapEv (len d : Nat) : trainCount (lapEv len d) = 0 := by
  unfold lapEv; split <;> rfl

@[simp]
theorem trainCount_logEv (g : Nat) : trainCount (logEv g) = 0 := by
  unfold logEv; split <;> rfl

@[simp]
theorem trainCount_evalEv (g : Nat) : trainCount (evalEv g) = 0 := by
  unfold evalEv; split <;> rfl

@[simp]
theorem trainCount_genEv (g : Nat) : trainCount (genEv g) = 0 := by
  unfold genEv; split <;> rfl

@[simp]
theorem stepTags_lapEv (len d : Nat) : stepTags (lapEv len d) = [] := by
  unfold lapEv stepTags; split <;> rfl

@[simp]
theorem stepTags_logEv (g : Nat) : stepTags (logEv g) = [] := by
  unfold logEv stepTags; split <;> rfl

@[simp]
theorem stepTags_evalEv (g : Nat) : stepTags (evalEv g) = [] := by
  unfold evalEv stepTags; split <;> rfl

@[simp]
theorem stepTags_genEv (g : Nat) : stepTags (genEv g) = [] := by
  unfold genEv stepTags; split <;> rfl

@[simp]
theorem saveTags_lapEv (len d : Nat) : saveTags (lapEv len d) = [] := by
  unfold lapEv saveTags; split <;> rfl

@[simp]
theorem saveTags_logEv (g : Nat) : saveTags (logEv g) = [] := by
  unfold logEv saveTags; split <;> rfl

@[simp]
theorem saveTags_genEv (g : Nat) : saveTags (genEv g) = [] := by
  unfold genEv saveTags; split <;> rfl

theorem saveTags_evalEv (g : Nat) :
    saveTags (evalEv g) = if g % EVAL_FREQUENCY = 0 then [g] else [] := by
  unfold evalEv saveTags; split <;> rfl

@[simp]
theorem nanExit_not_mem_lapEv (len d : Nat) :
    Event.nanExit ∉ lapEv len d := by
  unfold lapEv; split <;> simp

@[simp]
theorem nanExit_not_mem_logEv (g : Nat) : Event.nanExit ∉ logEv g := by
  unfold logEv; split <;> simp

@[simp]
theorem nanExit_not_mem_evalEv (g : Nat) : Event.nanExit ∉ evalEv g := by
  unfold evalEv; split <;> simp

@[simp]
theorem nanExit_not_mem_genEv (g : Nat) : Event.nanExit ∉ genEv g := by
  unfold genEv; split <;> simp

@[simp]
theorem save_not_mem_lapEv (g len d : Nat) :
    Event.save g ∉ lapEv len d := by
  unfold lapEv; split <;> simp

@[simp]
theorem save_not_mem_logEv (g m : Nat) : Event.save g ∉ logEv m := by
  unfold logEv; split <;> simp

@[simp]
theorem save_not_mem_genEv (g m : Nat) : Event.save g ∉ genEv m := by
  unfold genEv; split <;> simp

theorem save_mem_evalEv (g m : Nat) (h : Event.save g ∈ evalEv m) :
    g = m := by
  unfold evalEv at h
  rcases h' : decide (m % EVAL_FREQUENCY = 0) with _ | _ <;>
    simp_all [evalEv]

theorem logScalar_mem_logEv (g : Nat) (h : g % LOG_FREQUENCY = 0) :
    Event.logScalar g ∈ logEv g := by
  unfold logEv; simp [h]

theorem stepTags_append (l₁ l₂ : List Event) :
    stepTags (l₁ ++ l₂) = stepTags l₁ ++ stepTags l₂ := by
  simp [stepTags, List.filterMap_append]

theorem saveTags_append (l₁ l₂ : List Event) :
    saveTags (l₁ ++ l₂) = saveTags l₁ ++ saveTags l₂ := by
  simp [saveTags, List.filterMap_append]

@[simp]
theorem stepTags_pair (g : Nat) :
    stepTags [Event.trainStep, Event.stepDone g] = [g] := rfl

@[simp]
theorem stepTags_nanExit : stepTags [Event.nanExit] = [] := rfl

@[simp]
theorem stepTags_saveSingle (g : Nat) : stepTags [Event.save g] = [] := rfl

@[simp]
theorem trainCount_pair (g : Nat) :
    trainCount [Event.trainStep, Event.stepDone g] = 1 := rfl

@[simp]
theorem trainCount_nanExit : trainCount [Event.nanExit] = 0 := rfl

@[simp]
theorem trainCount_saveSingle (g : Nat) :
    trainCount [Event.save g] = 0 := rfl

@[simp]
theorem saveTags_pair (g : Nat) :
    saveTags [Event.trainStep, Event.stepDone g] = [] := rfl

@[simp]
theorem saveTags_nanExit : saveTags [Event.nanExit] = [] := rfl

@[simp]
theorem saveTags_saveSingle (g : Nat) : saveTags [Event.save g] = [g] := rfl

/-! Structural facts about runLoop, each proved by induction on the fuel. -/

theorem runLoop_gsF (fuel : Nat) (done nan : Nat → Bool) (len : Nat)
    (s : LoopState) :
    (runLoop fuel done nan len s).2.2 =
      s.gs + trainCount (runLoop fuel done nan len s).2.1 := by
  induction fuel generalizing s with
  | zero => simp [runLoop, trainCount]
  | succ fuel ih =>
    rw [runLoop]
    rcases hd : done s.gs with _ | _
    · simp only [hd, Bool.false_eq_true, if_false]
      rcases hn : nan (s.gs + 1) with _ | _
      · simp only [hn, Bool.false_eq_true, if_false]
        simp [trainCount_append, trainCount, ih ⟨s.gs + 1, s.drawn + 1⟩]
        omega
      · simp [hn, trainCount_append, trainCount]
    · simp [hd, trainCount]

theorem runLoop_stepTags (fuel : Nat) (done nan : Nat → Bool) (len : Nat)
    (s : LoopState) :
    stepTags (runLoop fuel done nan len s).2.1 =
      List.range' (s.gs + 1)
        (trainCount (runLoop fuel done nan len s).2.1) := by
  induction fuel generalizing s with
  | zero => simp [runLoop, trainCount, stepTags]
  | succ fuel ih =>
    rw [runLoop]
    rcases hd : done s.gs with _ | _
    · simp only [hd, Bool.false_eq_true, if_false]
      rcases hn : nan (s.gs + 1) with _ | _
      · simp only [hn, Bool.false_eq_true, if_false]
        have h2 := ih ⟨s.gs + 1, s.drawn + 1⟩
        simp only [stepTags_append, stepTags_lapEv, stepTags_logEv,
          stepTags_evalEv, stepTags_genEv, stepTags_pair, trainCount_append,
          trainCount_lapEv, trainCount_logEv, trainCount_evalEv,
          trainCount_genEv, trainCount_pair, Nat.zero_add, Nat.add_zero,
          List.nil_append, List.append_nil, List.singleton_append]
        rw [h2, Nat.add_comm 1 (trainCount _), List.range'_succ]
      · simp only [hn, if_true]
        simp only [stepTags_append, stepTags_lapEv, stepTags_logEv,
          stepTags_pair, stepTags_nanExit, trainCount_append,
          trainCount_lapEv, trainCount_logEv, trainCount_pair,
          trainCount_nanExit, Nat.zero_add, Nat.add_zero,
          List.nil_append, List.append_nil]
        simp [List.range'_succ]
    · simp [hd, trainCount, stepTags]

theorem runLoop_nanHalt_iff (fuel : Nat) (done nan : Nat → Bool)
    (len : Nat) (s : LoopState) :
    (runLoop fuel done nan len s).1 = RunResult.nanHalt ↔
      Event.nanExit ∈ (runLoop fuel done nan len s).2.1 := by
  induction fuel generalizing s with
  | zero => simp [runLoop]
  | succ fuel ih =>
    rw [runLoop]
    rcases hd : done s.gs with _ | _
    · simp only [hd, Bool.false_eq_true, if_false]
      rcases hn : nan (s.gs + 1) with _ | _
      · simp only [hn, Bool.false_eq_true, if_false]
        simp [ih ⟨s.gs + 1, s.drawn + 1⟩]
      · simp [hn]
    · simp [hd]

theorem runLoop_nanHalt_shape (fuel : Nat) (done nan : Nat → Bool)
    (len : Nat) (s : LoopState)
    (h : (runLoop fuel done nan len s).1 = RunResult.nanHalt) :
    ∃ t₀, (runLoop fuel done nan len s).2.1 = t₀ ++ [Event.nanExit] ∧
      Event.nanExit ∉ t₀ ∧
      ((runLoop fuel done nan len s).2.2 % LOG_FREQUENCY = 0 →
        Event.logScalar (runLoop fuel done nan len s).2.2 ∈ t₀) := by
  induction fuel generalizing s with
  | zero => simp [runLoop] at h
  | succ fuel ih =>
    rw [runLoop] at h ⊢
    rcases hd : done s.gs with _ | _
    · simp only [hd, Bool.false_eq_true, if_false] at h ⊢
      rcases hn : nan (s.gs + 1) with _ | _
      · simp only [hn, Bool.false_eq_true, if_false] at h ⊢
        obtain ⟨t₀, ht, hmem, hlog⟩ := ih ⟨s.gs + 1, s.drawn + 1⟩ h
        refine ⟨lapEv len s.drawn ++
          [Event.trainStep, Event.stepDone (s.gs + 1)] ++ logEv (s.gs + 1) ++
          evalEv (s.gs + 1) ++ genEv (s.gs + 1) ++ t₀, ?_, ?_, ?_⟩
        · simp [ht]
        · simp [hmem]
        · intro hmod
          simp [hlog hmod]
      · simp only [hn, if_true]
        refine ⟨lapEv len s.drawn ++
          [Event.trainStep, Event.stepDone (s.gs + 1)] ++
          logEv (s.gs + 1), ?_, ?_, ?_⟩
        · simp
        · simp
        · intro hmod
          simp [logScalar_mem_logEv _ hmod]
    · simp [hd] at h

theorem runLoop_nanHalt_nan (fuel : Nat) (done nan : Nat → Bool)
    (len : Nat) (s : LoopState)
    (h : (runLoop fuel done nan len s).1 = RunResult.nanHalt) :
    nan (runLoop fuel done nan len s).2.2 = true := by
  induction fuel generalizing s with
  | zero => simp [runLoop] at h
  | succ fuel ih =>
    rw [runLoop] at h ⊢
    rcases hd : done s.gs with _ | _
    · simp only [hd, Bool.false_eq_true, if_false] at h ⊢
      rcases hn : nan (s.gs + 1) with _ | _
      · simp only [hn, Bool.false_eq_true, if_false] at h ⊢
        exact ih ⟨s.gs + 1, s.drawn + 1⟩ h
      · simp [hn]
    · simp [hd] at h

theorem runLoop_normal_nanfree (fuel : Nat) (done nan : Nat → Bool)
    (len : Nat) (s : LoopState)
    (h : (runLoop fuel done nan len s).1 = RunResult.normal) :
    ∀ k, s.gs < k → k ≤ (runLoop fuel done nan len s).2.2 →
      nan k = false := by
  induction fuel generalizing s with
  | zero => simp [runLoop] at h
  | succ fuel ih =>
    rw [runLoop] at h ⊢
    rcases hd : done s.gs with _ | _
    · simp only [hd, Bool.false_eq_true, if_false] at h ⊢
      rcases hn : nan (s.gs + 1) with _ | _
      · simp only [hn, Bool.false_eq_true, if_false] at h ⊢
        intro k hk1 hk2
        by_cases hk : k = s.gs + 1
        · subst hk; exact hn
        · exact ih ⟨s.gs + 1, s.drawn + 1⟩ h k
            (show s.gs + 1 < k by omega) hk2
      · simp [hn] at h
    · simp only [hd, if_true] at h ⊢
      intro k hk1 hk2
      omega

theorem runLoop_save_le (fuel : Nat) (done nan : Nat → Bool) (len : Nat)
    (s : LoopState) (g : Nat)
    (h : Event.save g ∈ (runLoop fuel done nan len s).2.1) :
    g ≤ (runLoop fuel done nan len s).2.2 ∧
      ((runLoop fuel done nan len s).1 = RunResult.nanHalt →
        g < (runLoop fuel done nan len s).2.2) := by
  induction fuel generalizing s with
  | zero => simp [runLoop] at h
  | succ fuel ih =>
    rw [runLoop] at h ⊢
    rcases hd : done s.gs with _ | _
    · simp only [hd, Bool.false_eq_true, if_false] at h ⊢
      rcases hn : nan (s.gs + 1) with _ | _
      · simp only [hn, Bool.false_eq_true, if_false] at h ⊢
        have hmono : s.gs + 1 ≤
            (runLoop fuel done nan len ⟨s.gs + 1, s.drawn + 1⟩).2.2 := by
          have hg1 := runLoop_gsF fuel done nan len ⟨s.gs + 1, s.drawn + 1⟩
          have hg2 : (⟨s.gs + 1, s.drawn + 1⟩ : LoopState).gs = s.gs + 1 :=
            rfl
          rw [hg2] at hg1
          omega
        rcases List.mem_append.mp h with hfront | hrest
        · rcases List.mem_append.mp hfront with hfront | hge
          · rcases List.mem_append.mp hfront with hfront | hev
            · rcases List.mem_append.mp hfront with hfront | hlg
              · rcases List.mem_append.mp hfront with hl | hm
                · exact absurd hl (save_not_mem_lapEv g len s.drawn)
                · simp at hm
              · exact absurd hlg (save_not_mem_logEv g (s.gs + 1))
            · have hg := save_mem_evalEv g (s.gs + 1) hev
              subst hg
              refine ⟨hmono, fun hhalt => ?_⟩
              rcases Nat.eq_or_lt_of_le hmono with heq | hlt
              · exfalso
                have hnan2 := runLoop_nanHalt_nan fuel done nan len
                  ⟨s.gs + 1, s.drawn + 1⟩ hhalt
                rw [← heq] at hnan2
                rw [hn] at hnan2
                exact Bool.false_ne_true hnan2
              · exact hlt
          · exact absurd hge (save_not_mem_genEv g (s.gs + 1))
        · exact ih ⟨s.gs + 1, s.drawn + 1⟩ hrest
      · simp only [hn, if_true] at h ⊢
        simp at h
    · simp only [hd, if_true] at h ⊢
      simp at h
      subst h
      exact ⟨Nat.le_refl _, fun hc => by simp at hc⟩

theorem runLoop_saveTags_done (fuel : Nat) (N len : Nat) (s : LoopState)
    (hle : s.gs ≤ N) (hfuel : N - s.gs < fuel) :
    (runLoop fuel (fun g => decide (N ≤ g)) (fun _ => false) len s).1 =
      RunResult.normal ∧
    saveTags
        (runLoop fuel (fun g => decide (N ≤ g)) (fun _ => false) len
          s).2.1 =
      (List.range' (s.gs + 1) (N - s.gs)).filter
        (fun m => decide (m % EVAL_FREQUENCY = 0)) ++ [N] := by
  induction fuel generalizing s with
  | zero => omega
  | succ fuel ih =>
    rw [runLoop]
    by_cases hd : N ≤ s.gs
    · have hgs : s.gs = N := Nat.le_antisymm hle hd
      simp [hd, hgs, saveTags_saveSingle]
    · have hd' : decide (N ≤ s.gs) = false := by simp [hd]
      simp only [hd', Bool.false_eq_true, if_false]
      have hih := ih ⟨s.gs + 1, s.drawn + 1⟩
        (show s.gs + 1 ≤ N by omega) (show N - (s.gs + 1) < fuel by omega)
      refine ⟨hih.1, ?_⟩
      simp only [saveTags_append, saveTags_lapEv, saveTags_pair,
        saveTags_logEv, saveTags_genEv, saveTags_evalEv, List.nil_append,
        List.append_nil]
      rw [hih.2]
      have hsplit : N - s.gs = (N - (s.gs + 1)) + 1 := by omega
      rw [hsplit, List.range'_succ, List.filter_cons]
      by_cases hev : (s.gs + 1) % EVAL_FREQUENCY = 0
      · simp [hev]
      · simp [hev]

/-! Claim theorems for the training loop driver. -/

/-- Claim C1: for every run of the training loop that starts from a freshly
constructed model (global step counter 0, nothing drawn) and completes
normally, the global step counter afterwards equals exactly the number N
of calls that reached model.train_step, the counter values recorded after
each step are exactly 1, 2, ..., N (incremented exactly once per
completed step, never decremented or skipped), and no executed step
returned a NaN loss. -/
theorem train_loop_counts_steps_exactly (fuel len : Nat)
    (done nan : Nat → Bool)
    (h : (runLoop fuel done nan len ⟨0, 0⟩).1 = RunResult.normal) :
    (runLoop fuel done nan len ⟨0, 0⟩).2.2 =
      trainCount (runLoop fuel done nan len ⟨0, 0⟩).2.1 ∧
    stepTags (runLoop fuel done nan len ⟨0, 0⟩).2.1 =
      List.range' 1 (trainCount (runLoop fuel done nan len ⟨0, 0⟩).2.1) ∧
    (∀ k, 0 < k → k ≤ (runLoop fuel done nan len ⟨0, 0⟩).2.2 →
      nan k = false) := by
  have h1 := runLoop_gsF fuel done nan len ⟨0, 0⟩
  have h2 := runLoop_stepTags fuel done nan len ⟨0, 0⟩
  have h3 := runLoop_normal_nanfree fuel done nan len ⟨0, 0⟩ h
  exact ⟨by simpa using h1, by simpa using h2, by simpa using h3⟩

/-- Witness for C1: a concrete 3-step run with no NaN losses ends at
global step 3 with step records 1, 2, 3. -/
theorem train_loop_counts_steps_exactly_witness :
    (runLoop 6 (fun g => decide (3 ≤ g)) (fun _ => false) 2 ⟨0, 0⟩).2.2 =
      trainCount
        (runLoop 6 (fun g => decide (3 ≤ g)) (fun _ => false) 2
          ⟨0, 0⟩).2.1 ∧
    stepTags
        (runLoop 6 (fun g => decide (3 ≤ g)) (fun _ => false) 2
          ⟨0, 0⟩).2.1 =
      List.range' 1
        (trainCount
          (runLoop 6 (fun g => decide (3 ≤ g)) (fun _ => false) 2
            ⟨0, 0⟩).2.1) :=
  ⟨(train_loop_counts_steps_exactly 6 2 (fun g => decide (3 ≤ g))
      (fun _ => false) (by decide)).1,
    (train_loop_counts_steps_exactly 6 2 (fun g => decide (3 ≤ g))
      (fun _ => false) (by decide)).2.1⟩

/-- Claim C2: a run halts as a NaN halt exactly when its trace contains the
NaN exit; a NaN halt exits the whole process with status 1, happens at a
step whose loss is NaN, is the final event of the run (nothing is
retried, no event follows), leaves the counter at the number of completed
train_step calls (it is never incremented further), and the checkpoint
for the halting step is never written; a normal run has no NaN loss at
any executed step. -/
theorem nan_loss_terminates_run (fuel len : Nat) (done nan : Nat → Bool) :
    ((runLoop fuel done nan len ⟨0, 0⟩).1 = RunResult.nanHalt ↔
      Event.nanExit ∈ (runLoop fuel done nan len ⟨0, 0⟩).2.1) ∧
    ((runLoop fuel done nan len ⟨0, 0⟩).1 = RunResult.nanHalt →
      exitStatus (runLoop fuel done nan len ⟨0, 0⟩).1 = some 1 ∧
      nan (runLoop fuel done nan len ⟨0, 0⟩).2.2 = true ∧
      (∃ t₀, (runLoop fuel done nan len ⟨0, 0⟩).2.1 =
          t₀ ++ [Event.nanExit] ∧ Event.nanExit ∉ t₀) ∧
      (runLoop fuel done nan len ⟨0, 0⟩).2.2 =
        trainCount (runLoop fuel done nan len ⟨0, 0⟩).2.1 ∧
      Event.save (runLoop fuel done nan len ⟨0, 0⟩).2.2 ∉
        (runLoop fuel done nan len ⟨0, 0⟩).2.1) ∧
    ((runLoop fuel done nan len ⟨0, 0⟩).1 = RunResult.normal →
      ∀ k, 0 < k → k ≤ (runLoop fuel done nan len ⟨0, 0⟩).2.2 →
      nan k = false) := by
  constructor
  · exact runLoop_nanHalt_iff fuel done nan len ⟨0, 0⟩
  constructor
  · intro hh
    refine ⟨by rw [hh]; rfl,
      runLoop_nanHalt_nan fuel done nan len ⟨0, 0⟩ hh, ?_,
      by simpa using runLoop_gsF fuel done nan len ⟨0, 0⟩, ?_⟩
    · obtain ⟨t₀, ht, hmem, -⟩ :=
        runLoop_nanHalt_shape fuel done nan len ⟨0, 0⟩ hh
      exact ⟨t₀, ht, hmem⟩
    · intro hs
      have hsl := runLoop_save_le fuel done nan len ⟨0, 0⟩ _ hs
      exact Nat.lt_irrefl _ (hsl.2 hh)
  · intro hn
    simpa using runLoop_normal_nanfree fuel done nan len ⟨0, 0⟩ hn

/-- Witness for C2: in a concrete run whose 10th loss is NaN, the process
exits with status 1, the final event is the NaN exit, and the checkpoint
for step 10 is never written. -/
theorem nan_loss_terminates_run_witness :
    exitStatus
        (runLoop 20 (fun g => decide (100 ≤ g)) (fun g => decide (g = 10))
          1 ⟨0, 0⟩).1 = some 1 ∧
    Event.save
        (runLoop 20 (fun g => decide (100 ≤ g)) (fun g => decide (g = 10))
          1 ⟨0, 0⟩).2.2 ∉
      (runLoop 20 (fun g => decide (100 ≤ g)) (fun g => decide (g = 10))
        1 ⟨0, 0⟩).2.1 :=
  ⟨((nan_loss_terminates_run 20 1 (fun g => decide (100 ≤ g))
      (fun g => decide (g = 10))).2.1 (by decide)).1,
    ((nan_loss_terminates_run 20 1 (fun g => decide (100 ≤ g))
      (fun g => decide (g = 10))).2.1 (by decide)).2.2.2.2⟩

/-- Claim C3 counterexample: in the source the LOG_FREQUENCY emission (line
456) precedes the NaN check (line 461), so an iteration whose loss is NaN
at a logging boundary emits its scalar loss record to the metrics sink
and only then terminates: in this concrete run the 10th loss is NaN, the
run is a NaN halt, yet the scalar record for step 10 occurs in the trace
strictly before the final NaN exit, contradicting the claim that
termination precedes the emission. -/
theorem nan_exit_does_not_precede_log_emission :
    (runLoop 20 (fun g => decide (100 ≤ g)) (fun g => decide (g = 10)) 1
        ⟨0, 0⟩).1 = RunResult.nanHalt ∧
    Event.logScalar 10 ∈
      (runLoop 20 (fun g => decide (100 ≤ g)) (fun g => decide (g = 10)) 1
          ⟨0, 0⟩).2.1.dropLast ∧
    (runLoop 20 (fun g => decide (100 ≤ g)) (fun g => decide (g = 10)) 1
        ⟨0, 0⟩).2.1.getLast? = some Event.nanExit := by
  refine ⟨by decide, by decide, by decide⟩

/-- Claim C3 amended: the metric emission of step 7 of the per-iteration
algorithm precedes the NaN-loss termination of step 6: an iteration whose
loss is NaN and whose step is a LOG_FREQUENCY boundary first emits its
scalar loss record and then terminates with the NaN exit as the final
event of the trace. -/
theorem log_emission_precedes_nan_exit (fuel len : Nat)
    (done nan : Nat → Bool)
    (h : (runLoop fuel done nan len ⟨0, 0⟩).1 = RunResult.nanHalt)
    (hmod : (runLoop fuel done nan len ⟨0, 0⟩).2.2 % LOG_FREQUENCY = 0) :
    ∃ t₀, (runLoop fuel done nan len ⟨0, 0⟩).2.1 =
        t₀ ++ [Event.nanExit] ∧
      Event.logScalar (runLoop fuel done nan len ⟨0, 0⟩).2.2 ∈ t₀ := by
  obtain ⟨t₀, ht, -, hlog⟩ :=
    runLoop_nanHalt_shape fuel done nan len ⟨0, 0⟩ h
  exact ⟨t₀, ht, hlog hmod⟩

/-- Witness for the amended C3: the concrete NaN run at step 10 (a
LOG_FREQUENCY boundary) emits the scalar record before the NaN exit. -/
theorem log_emission_precedes_nan_exit_witness :
    ∃ t₀, (runLoop 20 (fun g => decide (100 ≤ g)) (fun g => decide (g = 10))
        1 ⟨0, 0⟩).2.1 = t₀ ++ [Event.nanExit] ∧
      Event.logScalar
        (runLoop 20 (fun g => decide (100 ≤ g)) (fun g => decide (g = 10))
          1 ⟨0, 0⟩).2.2 ∈ t₀ :=
  log_emission_precedes_nan_exit 20 1 (fun g => decide (100 ≤ g))
    (fun g => decide (g = 10)) (by decide) (by decide)

/-! Facts about fixed-width decimal digit strings and their
lexicographic order, leading to the claims on last_checkpoint_path. -/

theorem padDigits_mod (k : Nat) : ∀ n, padDigits k (n % 10 ^ k) = padDigits k n := by
  induction k with
  | zero => intro n; rfl
  | succ k ih =>
    intro n
    show n % 10 ^ (k + 1) / 10 ^ k % 10 :: padDigits k (n % 10 ^ (k + 1)) =
      n / 10 ^ k % 10 :: padDigits k n
    have hhead : n % 10 ^ (k + 1) / 10 ^ k % 10 = n / 10 ^ k % 10 := by
      rw [pow_succ, Nat.mod_mul_right_div_self,
        Nat.mod_mod_of_dvd _ (dvd_refl 10)]
    have hdvd : (10 : Nat) ^ k ∣ 10 ^ (k + 1) :=
      pow_dvd_pow 10 (Nat.le_succ k)
    have htail : padDigits k (n % 10 ^ (k + 1)) = padDigits k n := by
      calc padDigits k (n % 10 ^ (k + 1))
          = padDigits k (n % 10 ^ (k + 1) % 10 ^ k) := (ih _).symm
        _ = padDigits k (n % 10 ^ k) := by
            rw [Nat.mod_mod_of_dvd _ hdvd]
        _ = padDigits k n := ih n
    rw [hhead, htail]

theorem padDigits_lt_iff (k : Nat) : ∀ m n, m < 10 ^ k → n < 10 ^ k →
    (lexLtB (padDigits k m) (padDigits k n) = true ↔ m < n) := by
  induction k with
  | zero =>
    intro m n hm hn
    simp [padDigits, lexLtB]
    omega
  | succ k ih =>
    intro m n hm hn
    have hp : 0 < 10 ^ k := pow_pos (by norm_num) k
    have hm10 : m / 10 ^ k < 10 :=
      Nat.div_lt_of_lt_mul (by rw [← pow_succ]; exact hm)
    have hn10 : n / 10 ^ k < 10 :=
      Nat.div_lt_of_lt_mul (by rw [← pow_succ]; exact hn)
    have hdm := Nat.div_add_mod m (10 ^ k)
    have hdn := Nat.div_add_mod n (10 ^ k)
    have hrm : m % 10 ^ k < 10 ^ k := Nat.mod_lt _ hp
    have hrn : n % 10 ^ k < 10 ^ k := Nat.mod_lt _ hp
    show (if m / 10 ^ k % 10 < n / 10 ^ k % 10 then true
      else if n / 10 ^ k % 10 < m / 10 ^ k % 10 then false
      else lexLtB (padDigits k m) (padDigits k n)) = true ↔ m < n
    rw [Nat.mod_eq_of_lt hm10, Nat.mod_eq_of_lt hn10]
    have htails : lexLtB (padDigits k m) (padDigits k n) = true ↔
        m % 10 ^ k < n % 10 ^ k := by
      rw [← padDigits_mod k m, ← padDigits_mod k n]
      exact ih _ _ hrm hrn
    rcases Nat.lt_trichotomy (m / 10 ^ k) (n / 10 ^ k) with hq | hq | hq
    · rw [if_pos hq]
      have hstep : 10 ^ k * (m / 10 ^ k) + 10 ^ k ≤
          10 ^ k * (n / 10 ^ k) := by
        have hmul := Nat.mul_le_mul_left (10 ^ k) (Nat.succ_le_of_lt hq)
        rw [Nat.mul_succ] at hmul
        exact hmul
      have hlt : m < n := by
        have h1 : 10 ^ k * (m / 10 ^ k) + m % 10 ^ k <
            10 ^ k * (m / 10 ^ k) + 10 ^ k := Nat.add_lt_add_left hrm _
        rw [hdm] at h1
        have h3 : 10 ^ k * (n / 10 ^ k) ≤ n := by
          have h4 : 10 ^ k * (n / 10 ^ k) ≤
              10 ^ k * (n / 10 ^ k) + n % 10 ^ k := Nat.le_add_right _ _
          rw [hdn] at h4
          exact h4
        exact Nat.lt_of_lt_of_le h1 (Nat.le_trans hstep h3)
      simp [hlt]
    · rw [hq, if_neg (Nat.lt_irrefl _), if_neg (Nat.lt_irrefl _)]
      rw [htails]
      constructor
      · intro hr
        have h1 : 10 ^ k * (m / 10 ^ k) + m % 10 ^ k <
            10 ^ k * (m / 10 ^ k) + n % 10 ^ k := Nat.add_lt_add_left hr _
        rw [hdm] at h1
        rw [hq] at h1
        rw [hdn] at h1
        exact h1
      · intro hmn
        by_contra hcon
        have hr : n % 10 ^ k ≤ m % 10 ^ k := Nat.le_of_not_lt hcon
        have h1 : 10 ^ k * (n / 10 ^ k) + n % 10 ^ k ≤
            10 ^ k * (n / 10 ^ k) + m % 10 ^ k := Nat.add_le_add_left hr _
        rw [hdn] at h1
        rw [← hq] at h1
        rw [hdm] at h1
        exact Nat.lt_irrefl _ (Nat.lt_of_lt_of_le hmn h1)
    · rw [if_neg (Nat.lt_asymm hq), if_pos hq]
      have hstep : 10 ^ k * (n / 10 ^ k) + 10 ^ k ≤
          10 ^ k * (m / 10 ^ k) := by
        have hmul := Nat.mul_le_mul_left (10 ^ k) (Nat.succ_le_of_lt hq)
        rw [Nat.mul_succ] at hmul
        exact hmul
      have hlt : n < m := by
        have h1 : 10 ^ k * (n / 10 ^ k) + n % 10 ^ k <
            10 ^ k * (n / 10 ^ k) + 10 ^ k := Nat.add_lt_add_left hrn _
        rw [hdn] at h1
        have h3 : 10 ^ k * (m / 10 ^ k) ≤ m := by
          have h4 : 10 ^ k * (m / 10 ^ k) ≤
              10 ^ k * (m / 10 ^ k) + m % 10 ^ k := Nat.le_add_right _ _
          rw [hdm] at h4
          exact h4
        exact Nat.lt_of_lt_of_le h1 (Nat.le_trans hstep h3)
      simp [Nat.lt_asymm hlt]

theorem lexLtB_irrefl : ∀ a : List Nat, lexLtB a a = false := by
  intro a
  induction a with
  | nil => rfl
  | cons x t ih =>
    show (if x < x then true else if x < x then false else lexLtB t t) =
      false
    rw [if_neg (Nat.lt_irrefl x), if_neg (Nat.lt_irrefl x)]
    exact ih

theorem padDigits_inj (a b : Nat) (ha : a < 10 ^ 8) (hb : b < 10 ^ 8)
    (h : padDigits 8 a = padDigits 8 b) : a = b := by
  rcases Nat.lt_trichotomy a b with hab | hab | hab
  · exfalso
    have := (padDigits_lt_iff 8 a b ha hb).mpr hab
    rw [h] at this
    rw [lexLtB_irrefl] at this
    exact Bool.false_ne_true this
  · exact hab
  · exfalso
    have := (padDigits_lt_iff 8 b a hb ha).mpr hab
    rw [h] at this
    rw [lexLtB_irrefl] at this
    exact Bool.false_ne_true this

theorem lexLeB_refl : ∀ a : List Nat, lexLeB a a = true := by
  intro a
  induction a with
  | nil => rfl
  | cons x t ih =>
    show (if x < x then true else if x < x then false else lexLeB t t) =
      true
    rw [if_neg (Nat.lt_irrefl x), if_neg (Nat.lt_irrefl x)]
    exact ih

theorem lexLe_total : ∀ a b : List Nat, lexLe a b ∨ lexLe b a := by
  intro a
  induction a with
  | nil => intro b; left; rfl
  | cons x t ih =>
    intro b
    cases b with
    | nil => right; rfl
    | cons y u =>
      rcases Nat.lt_trichotomy x y with hxy | hxy | hxy
      · left
        show (if x < y then true else if y < x then false else lexLeB t u) =
          true
        rw [if_pos hxy]
      · subst hxy
        rcases ih u with h | h
        · left
          show (if x < x then true else if x < x then false else
            lexLeB t u) = true
          rw [if_neg (Nat.lt_irrefl x), if_neg (Nat.lt_irrefl x)]
          exact h
        · right
          show (if x < x then true else if x < x then false else
            lexLeB u t) = true
          rw [if_neg (Nat.lt_irrefl x), if_neg (Nat.lt_irrefl x)]
          exact h
      · right
        show (if y < x then true else if x < y then false else lexLeB u t) =
          true
        rw [if_pos hxy]

theorem lexLe_trans : ∀ a b c : List Nat, lexLe a b → lexLe b c →
    lexLe a c := by
  intro a
  induction a with
  | nil => intro b c _ _; rfl
  | cons x t ih =>
    intro b c h1 h2
    cases b with
    | nil => exact absurd h1 (by simp [lexLe, lexLeB])
    | cons y u =>
      cases c with
      | nil => exact absurd h2 (by simp [lexLe, lexLeB])
      | cons z v =>
        have h1' : (if x < y then true else if y < x then false else
          lexLeB t u) = true := h1
        have h2' : (if y < z then true else if z < y then false else
          lexLeB u v) = true := h2
        show (if x < z then true else if z < x then false else
          lexLeB t v) = true
        rcases Nat.lt_trichotomy x y with hxy | hxy | hxy
        · rcases Nat.lt_trichotomy y z with hyz | hyz | hyz
          · rw [if_pos (Nat.lt_trans hxy hyz)]
          · subst hyz; rw [if_pos hxy]
          · rw [if_neg (Nat.lt_asymm hyz), if_pos hyz] at h2'
            exact absurd h2' Bool.false_ne_true
        · subst hxy
          rw [if_neg (Nat.lt_irrefl x), if_neg (Nat.lt_irrefl x)] at h1'
          rcases Nat.lt_trichotomy x z with hxz | hxz | hxz
          · rw [if_pos hxz]
          · subst hxz
            rw [if_neg (Nat.lt_irrefl x), if_neg (Nat.lt_irrefl x)] at h2' ⊢
            exact ih u v h1' h2'
          · rw [if_neg (Nat.lt_asymm hxz), if_pos hxz] at h2'
            exact absurd h2' Bool.false_ne_true
        · rw [if_neg (Nat.lt_asymm hxy), if_pos hxy] at h1'
          exact absurd h1' Bool.false_ne_true

theorem lexLeB_eq_not_lexLtB : ∀ a b : List Nat, a.length = b.length →
    lexLeB a b = ! lexLtB b a := by
  intro a
  induction a with
  | nil =>
    intro b hb
    cases b with
    | nil => rfl
    | cons y u => simp at hb
  | cons x t ih =>
    intro b hb
    cases b with
    | nil => simp at hb
    | cons y u =>
      show (if x < y then true else if y < x then false else lexLeB t u) =
        ! (if y < x then true else if x < y then false else lexLtB u t)
      rcases Nat.lt_trichotomy x y with hxy | hxy | hxy
      · rw [if_pos hxy, if_neg (Nat.lt_asymm hxy), if_pos hxy]
        rfl
      · subst hxy
        rw [if_neg (Nat.lt_irrefl x), if_neg (Nat.lt_irrefl x),
          if_neg (Nat.lt_irrefl x), if_neg (Nat.lt_irrefl x)]
        have hlen : t.length = u.length := by simpa using hb
        exact ih u hlen
      · rw [if_neg (Nat.lt_asymm hxy), if_pos hxy, if_pos hxy]
        rfl

theorem padDigits_length (k n : Nat) : (padDigits k n).length = k := by
  induction k generalizing n with
  | zero => rfl
  | succ k ih => simp [padDigits, ih]

theorem padDigits_le_iff (m n : Nat) (hm : m < 10 ^ 8) (hn : n < 10 ^ 8) :
    (lexLeB (padDigits 8 m) (padDigits 8 n) = true ↔ m ≤ n) := by
  rw [lexLeB_eq_not_lexLtB _ _
    (by rw [padDigits_length, padDigits_length])]
  rcases h : lexLtB (padDigits 8 n) (padDigits 8 m) with _ | _
  · simp only [Bool.not_false]
    have hnm := (padDigits_lt_iff 8 n m hn hm)
    rw [h] at hnm
    simp only [Bool.false_eq_true, false_iff] at hnm
    constructor
    · intro _; omega
    · intro _; trivial
  · simp only [Bool.not_true]
    have hnm := (padDigits_lt_iff 8 n m hn hm).mp h
    constructor
    · intro hc; exact absurd hc Bool.false_ne_true
    · intro hc
      exact absurd (Nat.lt_of_lt_of_le hnm hc) (Nat.lt_irrefl n)

theorem sorted_lexLe_getLast : ∀ (l : List (List Nat)),
    l.Sorted lexLe → ∀ (hne : l ≠ []) (x : List Nat), x ∈ l →
    lexLe x (l.getLast hne) := by
  intro l
  induction l with
  | nil => intro _ hne; exact absurd rfl hne
  | cons a t ih =>
    intro hs hne x hx
    cases t with
    | nil =>
      have hxa : x = a := by simpa using hx
      subst hxa
      exact lexLeB_refl x
    | cons b u =>
      rw [List.getLast_cons (by simp)]
      rcases List.mem_cons.mp hx with rfl | hx2
      · exact List.rel_of_sorted_cons hs _ (List.getLast_mem _)
      · exact ih hs.of_cons (by simp) x hx2

/-- Claim C6: for every set of checkpoint files written with 8-digit
zero-padded step names (steps below 10 ^ 8), the lexicographic sort used
by last_checkpoint_path coincides with the numeric order of the steps,
the returned file is the one of the greatest step, none is returned for
an empty checkpoint directory, and in particular for steps 100, 5000 and
250000 the step-250000 file is returned. -/
theorem last_checkpoint_path_is_max_step (steps : List Nat)
    (hb : ∀ s ∈ steps, s < 10 ^ 8) :
    (steps = [] → last_checkpoint_path steps = none) ∧
    (steps ≠ [] → ∃ m, m ∈ steps ∧ (∀ s ∈ steps, s ≤ m) ∧
      last_checkpoint_path steps = some (padDigits 8 m)) ∧
    (∀ a b, a < 10 ^ 8 → b < 10 ^ 8 →
      (lexLtB (padDigits 8 a) (padDigits 8 b) = true ↔ a < b)) ∧
    last_checkpoint_path [100, 5000, 250000] =
      some (padDigits 8 250000) := by
  letI : IsTotal (List Nat) lexLe := ⟨lexLe_total⟩
  letI : IsTrans (List Nat) lexLe := ⟨lexLe_trans⟩
  refine ⟨?_, ?_, fun a b ha hb' => padDigits_lt_iff 8 a b ha hb',
    by decide⟩
  · intro hnil
    subst hnil
    rfl
  · intro hne
    have hmapne : steps.map (padDigits 8) ≠ [] := by
      simpa using hne
    have hperm := List.perm_insertionSort lexLe (steps.map (padDigits 8))
    have hsort := List.sorted_insertionSort lexLe (steps.map (padDigits 8))
    have hLne : List.insertionSort lexLe (steps.map (padDigits 8)) ≠ [] := by
      intro hL
      rw [hL] at hperm
      exact hmapne hperm.symm.eq_nil
    have hx : (List.insertionSort lexLe
        (steps.map (padDigits 8))).getLast hLne ∈
        List.insertionSort lexLe (steps.map (padDigits 8)) :=
      List.getLast_mem hLne
    have hx2 : (List.insertionSort lexLe
        (steps.map (padDigits 8))).getLast hLne ∈
        steps.map (padDigits 8) := hperm.mem_iff.mp hx
    obtain ⟨m, hm, hxm⟩ := List.mem_map.mp hx2
    refine ⟨m, hm, ?_, ?_⟩
    · intro s hsmem
      have hsx : lexLe (padDigits 8 s)
          ((List.insertionSort lexLe (steps.map (padDigits 8))).getLast
            hLne) :=
        sorted_lexLe_getLast _ hsort hLne _
          (hperm.mem_iff.mpr (List.mem_map_of_mem _ hsmem))
      rw [← hxm] at hsx
      exact (padDigits_le_iff s m (hb s hsmem) (hb m hm)).mp hsx
    · show (List.insertionSort lexLe (steps.map (padDigits 8))).getLast? =
        some (padDigits 8 m)
      rw [List.getLast?_eq_getLast _ hLne, hxm]

/-- Witness for C6: for the concrete checkpoint steps 100, 5000 and
250000 the returned file is the 8-digit name of step 250000. -/
theorem last_checkpoint_path_is_max_step_witness :
    last_checkpoint_path [100, 5000, 250000] =
      some (padDigits 8 250000) :=
  (last_checkpoint_path_is_max_step [100, 5000, 250000]
    (by decide)).2.2.2

set_option maxRecDepth 100000 in
/-- Claim C7 counterexample: when is_done() becomes true exactly at an
EVAL_FREQUENCY boundary (here after 5000 steps), the loop body has just
written the step-5000 checkpoint and the final save after the loop writes
the very same step-5000 file name again, overwriting an existing
checkpoint record: the save steps of the run are [5000, 5000] and the
written file names are not distinct, contradicting the claim that no
execution ever rewrites an existing checkpoint file. -/
theorem final_save_rewrites_existing_checkpoint :
    saveTags (runLoop 5001 (fun g => decide (5000 ≤ g)) (fun _ => false) 1
        ⟨0, 0⟩).2.1 = [5000, 5000] ∧
    ¬ (ckptNames (runLoop 5001 (fun g => decide (5000 ≤ g))
        (fun _ => false) 1 ⟨0, 0⟩).2.1).Nodup := by
  have key : saveTags (runLoop 5001 (fun g => decide (5000 ≤ g))
      (fun _ => false) 1 ⟨0, 0⟩).2.1 = [5000, 5000] := by
    rw [(runLoop_saveTags_done 5001 5000 1 ⟨0, 0⟩ (Nat.zero_le 5000)
      (by norm_num)).2]
    decide
  refine ⟨key, ?_⟩
  simp only [ckptNames]
  rw [key]
  decide

/-- Claim C7 amended: checkpoints written inside the loop body are at pairwise
distinct steps (hence distinct file names, never overwritten by one
another), but the final save after is_done() reuses the step of the last
periodic save when training ends exactly at an EVAL_FREQUENCY boundary:
for a run of N steps the whole set of written file names is distinct if
and only if N is not a multiple of EVAL_FREQUENCY. -/
theorem loop_saves_distinct_final_may_overwrite (N fuel : Nat)
    (h1 : 1 ≤ N) (h2 : N < 10 ^ 8) (hfuel : N < fuel) :
    ((saveTags (runLoop fuel (fun g => decide (N ≤ g)) (fun _ => false) 1
        ⟨0, 0⟩).2.1).dropLast).Nodup ∧
    ((ckptNames (runLoop fuel (fun g => decide (N ≤ g)) (fun _ => false) 1
        ⟨0, 0⟩).2.1).Nodup ↔ ¬ N % EVAL_FREQUENCY = 0) := by
  have h := (runLoop_saveTags_done fuel N 1 ⟨0, 0⟩ (Nat.zero_le N)
    (show N - 0 < fuel by omega)).2
  have h2' : saveTags (runLoop fuel (fun g => decide (N ≤ g))
      (fun _ => false) 1 ⟨0, 0⟩).2.1 =
      (List.range' 1 N).filter (fun m => decide (m % EVAL_FREQUENCY = 0))
        ++ [N] := h
  have hFnd : ((List.range' 1 N).filter
      (fun m => decide (m % EVAL_FREQUENCY = 0))).Nodup :=
    List.Nodup.filter _ (List.nodup_range' 1 N)
  have hmemF : ∀ x ∈ (List.range' 1 N).filter
      (fun m => decide (m % EVAL_FREQUENCY = 0)), x ≤ N := by
    intro x hxf
    have hx := (List.mem_filter.mp hxf).1
    have := List.mem_range'_1.mp hx
    omega
  constructor
  · rw [h2']
    have hdl : (((List.range' 1 N).filter
        (fun m => decide (m % EVAL_FREQUENCY = 0))) ++ [N]).dropLast =
        (List.range' 1 N).filter
          (fun m => decide (m % EVAL_FREQUENCY = 0)) := by
      rw [List.dropLast_concat]
    rw [hdl]
    exact hFnd
  · simp only [ckptNames]
    rw [h2']
    have hNodupIff : ((((List.range' 1 N).filter
        (fun m => decide (m % EVAL_FREQUENCY = 0))) ++ [N]).map
          (padDigits 8)).Nodup ↔
        (((List.range' 1 N).filter
          (fun m => decide (m % EVAL_FREQUENCY = 0))) ++ [N]).Nodup := by
      constructor
      · exact fun hnd => hnd.of_map (padDigits 8)
      · intro hnd
        refine List.Nodup.map_on ?_ hnd
        intro x hx y hy hxy
        have hxb : x < 10 ^ 8 := by
          rcases List.mem_append.mp hx with hxf | hxs
          · have := hmemF x hxf; omega
          · have : x = N := by simpa using hxs
            omega
        have hyb : y < 10 ^ 8 := by
          rcases List.mem_append.mp hy with hyf | hys
          · have := hmemF y hyf; omega
          · have : y = N := by simpa using hys
            omega
        exact padDigits_inj x y hxb hyb hxy
    rw [hNodupIff]
    have hsplit : ((((List.range' 1 N).filter
        (fun m => decide (m % EVAL_FREQUENCY = 0))) ++ [N])).Nodup ↔
        N ∉ (List.range' 1 N).filter
          (fun m => decide (m % EVAL_FREQUENCY = 0)) := by
      rw [List.nodup_append]
      constructor
      · intro hc
        intro hNin
        exact hc.2.2 hNin (by simp)
      · intro hNin
        refine ⟨hFnd, by simp, ?_⟩
        intro a haF haN
        have ha : a = N := by simpa using haN
        subst ha
        exact hNin haF
    rw [hsplit]
    have hNmem : N ∈ (List.range' 1 N).filter
        (fun m => decide (m % EVAL_FREQUENCY = 0)) ↔
        N % EVAL_FREQUENCY = 0 := by
      rw [List.mem_filter]
      constructor
      · intro hc
        simpa using hc.2
      · intro hc
        refine ⟨List.mem_range'_1.mpr (by omega), by simpa using hc⟩
    constructor
    · intro hc hmod
      exact hc (hNmem.mpr hmod)
    · intro hc hmem
      exact hc (hNmem.mp hmem)

/-- Witness for the amended C7: a concrete 3-step run writes its
loop-body checkpoints at distinct steps and, since 3 is not a multiple of
EVAL_FREQUENCY, all written file names are distinct. -/
theorem loop_saves_distinct_final_may_overwrite_witness :
    ((saveTags (runLoop 4 (fun g => decide (3 ≤ g)) (fun _ => false) 1
        ⟨0, 0⟩).2.1).dropLast).Nodup ∧
    ((ckptNames (runLoop 4 (fun g => decide (3 ≤ g)) (fun _ => false) 1
        ⟨0, 0⟩).2.1).Nodup ↔ ¬ (3 : Nat) % EVAL_FREQUENCY = 0) :=
  loop_saves_distinct_final_may_overwrite 3 4 (by decide) (by decide)
    (by decide)

/-- Claim C8 counterexample: feeding a batch stream of length 3 for 10 training
steps restarts the stream three times, not twice: the run completes the
10 steps normally and exactly 3 lap-completion notices occur (one each
time the 4th, 7th and 10th batches are drawn), refuting the claim that
recycling happens twice. -/
theorem recycling_happens_three_times_not_twice :
    lapCount (runLoop 11 (fun g => decide (10 ≤ g)) (fun _ => false) 3
        ⟨0, 0⟩).2.1 = 3 ∧
    ¬ lapCount (runLoop 11 (fun g => decide (10 ≤ g)) (fun _ => false) 3
        ⟨0, 0⟩).2.1 = 2 := by
  exact ⟨by decide, by decide⟩

/-- Claim C8 amended: feeding a batch stream of length 3 for 10 training steps
causes exactly 3 full passes plus 1 partial pass (10 batches are drawn),
recycling happens three times, and a lap-completion notice is reported
each time the stream restarts: the run completes normally with exactly 10
train_step calls and exactly 3 lap notices in its trace. -/
theorem stream_length_three_ten_steps_laps :
    (runLoop 11 (fun g => decide (10 ≤ g)) (fun _ => false) 3
        ⟨0, 0⟩).1 = RunResult.normal ∧
    trainCount (runLoop 11 (fun g => decide (10 ≤ g)) (fun _ => false) 3
        ⟨0, 0⟩).2.1 = 10 ∧
    (runLoop 11 (fun g => decide (10 ≤ g)) (fun _ => false) 3
        ⟨0, 0⟩).2.2 = 10 ∧
    lapCount (runLoop 11 (fun g => decide (10 ≤ g)) (fun _ => false) 3
        ⟨0, 0⟩).2.1 = 3 := by
  exact ⟨by decide, by decide, by decide, by decide⟩

/-! Claim theorems for the checkpoint codec. -/

theorem restorePairs_self (ps : List (StateDict × Option StateDict)) :
    restorePairs ps (ps.map (fun p => p.1)) (ps.map (fun p => p.2)) =
      some ps := by
  induction ps with
  | nil => rfl
  | cons p ps ih =>
    obtain ⟨o, s⟩ := p
    cases s with
    | none => simp [restorePairs, ih]
    | some sd => simp [restorePairs, ih]

/-- Claim C4 amended: for every trainable entity whose model tensors contain no
NaN, loading the checkpoint produced by save restores the model
parameters, every optimizer's state and every present scheduler's state
to be equal to the pre-save state, and the global step counter (stored in
the model state dict) is preserved across the round trip. -/
theorem save_then_load_round_trip (e : Entity)
    (h : e.modelState.params.anyNaN = false) :
    load_model_from_checkpoint e (save_model e) = some e ∧
    ∀ e', load_model_from_checkpoint e (save_model e) = some e' →
      e'.modelState.global_step_buffer =
        e.modelState.global_step_buffer := by
  have hload : load_model_from_checkpoint e (save_model e) = some e := by
    unfold load_model_from_checkpoint save_model
    simp only [h, Bool.false_eq_true, if_false]
    rw [if_neg (fun hc => hc rfl)]
    rw [restorePairs_self]
  refine ⟨hload, fun e' he' => ?_⟩
  rw [hload] at he'
  injection he' with h2
  rw [h2]

/-- Witness for the amended C4: a concrete entity with one parameter
tensor, one optimizer and one scheduler survives the save-then-load round
trip unchanged. -/
theorem save_then_load_round_trip_witness :
    load_model_from_checkpoint
        ⟨⟨5, [("w", [FVal.num (1 / 2)])]⟩,
          [([("m", [FVal.num 2])], some [("s", [FVal.num 3])])]⟩
        (save_model
          ⟨⟨5, [("w", [FVal.num (1 / 2)])]⟩,
            [([("m", [FVal.num 2])], some [("s", [FVal.num 3])])]⟩) =
      some
        ⟨⟨5, [("w", [FVal.num (1 / 2)])]⟩,
          [([("m", [FVal.num 2])], some [("s", [FVal.num 3])])]⟩ :=
  (save_then_load_round_trip
    ⟨⟨5, [("w", [FVal.num (1 / 2)])]⟩,
      [([("m", [FVal.num 2])], some [("s", [FVal.num 3])])]⟩
    (by decide)).1

/-- Claim C4 counterexample: the claim quantifies over every trainable entity
state, but for a state whose model tensors contain a NaN the integrity
assert of load_model_from_checkpoint fires and the load fails, so nothing
is restored: loading the checkpoint just saved from this concrete entity
returns no entity at all instead of an observationally equivalent one. -/
theorem round_trip_fails_on_nan_parameters :
    load_model_from_checkpoint ⟨⟨7, [("w", [FVal.nan])]⟩, []⟩
        (save_model ⟨⟨7, [("w", [FVal.nan])]⟩, []⟩) = none ∧
    save_model ⟨⟨7, [("w", [FVal.nan])]⟩, []⟩ =
      ⟨⟨7, [("w", [FVal.nan])]⟩, [], []⟩ := by
  exact ⟨rfl, rfl⟩

/-- Claim C5 counterexample: the live entity has two optimizers while the
checkpoint record holds one optimizer state and one scheduler slot, yet
loading does not fail: zip truncates to the shortest list, the first
optimizer is restored from the checkpoint and the second silently keeps
its current state, refuting the claim that a count mismatch makes the
load fail fatally. -/
theorem count_mismatch_does_not_fail_load :
    (⟨⟨3, []⟩, [([("m", [FVal.num 1])], none),
        ([("v", [FVal.num 2])], none)]⟩ : Entity).optPairs.length = 2 ∧
    (⟨⟨9, []⟩, [[("m", [FVal.num 5])]], [none]⟩ :
        Checkpoint).optimizers.length = 1 ∧
    load_model_from_checkpoint
        ⟨⟨3, []⟩, [([("m", [FVal.num 1])], none),
          ([("v", [FVal.num 2])], none)]⟩
        ⟨⟨9, []⟩, [[("m", [FVal.num 5])]], [none]⟩ =
      some ⟨⟨9, []⟩, [([("m", [FVal.num 5])], none),
        ([("v", [FVal.num 2])], none)]⟩ := by
  exact ⟨rfl, rfl, rfl⟩

theorem restorePairs_trunc : ∀ (ps : List (StateDict × Option StateDict))
    (os : List StateDict) (sds : List (Option StateDict)),
    (∀ i, i < ps.length → i < os.length → i < sds.length →
      (ps.getD i default).2 = none ∨ sds.getD i none ≠ none) →
    ∃ r, restorePairs ps os sds = some r ∧
      r.length = ps.length ∧
      r.drop (min (min ps.length os.length) sds.length) =
        ps.drop (min (min ps.length os.length) sds.length) ∧
      (∀ i, i < ps.length → i < os.length → i < sds.length →
        (r.getD i default).1 = os.getD i default) := by
  intro ps
  induction ps with
  | nil =>
    intro os sds _
    refine ⟨[], by simp [restorePairs], rfl, by simp, ?_⟩
    intro i h1 _ _
    exact absurd h1 (Nat.not_lt_zero i)
  | cons p ps ih =>
    intro os sds hsched
    cases os with
    | nil =>
      refine ⟨p :: ps, by simp [restorePairs], rfl, by simp, ?_⟩
      intro i _ h2 _
      exact absurd h2 (Nat.not_lt_zero i)
    | cons o os =>
      cases sds with
      | nil =>
        refine ⟨p :: ps, by simp [restorePairs], rfl, by simp, ?_⟩
        intro i _ _ h3
        exact absurd h3 (Nat.not_lt_zero i)
      | cons sd sds =>
        obtain ⟨po, psched⟩ := p
        have hs' : ∀ i, i < ps.length → i < os.length → i < sds.length →
            (ps.getD i default).2 = none ∨ sds.getD i none ≠ none := by
          intro i h1 h2 h3
          have := hsched (i + 1) (by simpa using Nat.succ_lt_succ h1)
            (by simpa using Nat.succ_lt_succ h2)
            (by simpa using Nat.succ_lt_succ h3)
          simpa using this
        obtain ⟨r, hr, hlen, hdrop, hidx⟩ := ih os sds hs'
        cases psched with
        | none =>
          refine ⟨(o, none) :: r, ?_, by simp [hlen], ?_, ?_⟩
          · simp [restorePairs, hr]
          · simp only [List.length_cons, Nat.succ_min_succ,
              List.drop_succ_cons]
            exact hdrop
          · intro i h1 h2 h3
            cases i with
            | zero => simp
            | succ i =>
              simp only [List.getD_cons_succ]
              exact hidx i (by simpa using h1) (by simpa using h2)
                (by simpa using h3)
        | some s =>
          cases sd with
          | none =>
            have h0 := hsched 0 (by simp) (by simp) (by simp)
            simp at h0
          | some s' =>
            refine ⟨(o, some s') :: r, ?_, by simp [hlen], ?_, ?_⟩
            · simp [restorePairs, hr]
            · simp only [List.length_cons, Nat.succ_min_succ,
                List.drop_succ_cons]
              exact hdrop
            · intro i h1 h2 h3
              cases i with
              | zero => simp
              | succ i =>
                simp only [List.getD_cons_succ]
                exact hidx i (by simpa using h1) (by simpa using h2)
                  (by simpa using h3)

/-- Claim C5 amended: restore pairs checkpointed optimizer and scheduler states
positionally with the entity's current optimizer/scheduler list,
truncating to the shortest of the lists: loading does not detect a count
mismatch and does not fail; within the common range each optimizer state
is replaced by the checkpointed one, and every live pair beyond the
common range silently keeps its current state. -/
theorem load_pairs_positionally_truncating (e : Entity) (c : Checkpoint)
    (hnan : c.model.params.anyNaN = false)
    (hkeys : c.model.params.map Prod.fst =
      e.modelState.params.map Prod.fst)
    (hsched : ∀ i, i < e.optPairs.length → i < c.optimizers.length →
      i < c.lr_schedulers.length →
      (e.optPairs.getD i default).2 = none ∨
        c.lr_schedulers.getD i none ≠ none) :
    ∃ e', load_model_from_checkpoint e c = some e' ∧
      e'.modelState = c.model ∧
      e'.optPairs.length = e.optPairs.length ∧
      e'.optPairs.drop (min (min e.optPairs.length c.optimizers.length)
          c.lr_schedulers.length) =
        e.optPairs.drop (min (min e.optPairs.length c.optimizers.length)
          c.lr_schedulers.length) ∧
      (∀ i, i < e.optPairs.length → i < c.optimizers.length →
        i < c.lr_schedulers.length →
        (e'.optPairs.getD i default).1 = c.optimizers.getD i default) := by
  obtain ⟨r, hr, hlen, hdrop, hidx⟩ := restorePairs_trunc e.optPairs
    c.optimizers c.lr_schedulers hsched
  refine ⟨{ modelState := c.model, optPairs := r }, ?_, rfl, hlen, hdrop,
    hidx⟩
  unfold load_model_from_checkpoint
  simp only [hnan, Bool.false_eq_true, if_false]
  rw [if_neg (fun hc => hc hkeys), hr]

/-- Witness for the amended C5: the concrete two-optimizer entity loaded
from a one-optimizer checkpoint record succeeds with the first pair
restored positionally and the second pair untouched. -/
theorem load_pairs_positionally_truncating_witness :
    ∃ e', load_model_from_checkpoint
        ⟨⟨3, []⟩, [([("m", [FVal.num 1])], none),
          ([("v", [FVal.num 2])], none)]⟩
        ⟨⟨9, []⟩, [[("m", [FVal.num 5])]], [none]⟩ = some e' ∧
      e'.modelState = (⟨⟨9, []⟩, [[("m", [FVal.num 5])]], [none]⟩ :
        Checkpoint).model ∧
      e'.optPairs.length = 2 ∧
      e'.optPairs.drop 1 = [([("v", [FVal.num 2])], none)] ∧
      (e'.optPairs.getD 0 default).1 = [("m", [FVal.num 5])] := by
  obtain ⟨e', h1, h2, h3, h4, h5⟩ := load_pairs_positionally_truncating
    ⟨⟨3, []⟩, [([("m", [FVal.num 1])], none),
      ([("v", [FVal.num 2])], none)]⟩
    ⟨⟨9, []⟩, [[("m", [FVal.num 5])]], [none]⟩ (by decide) (by decide)
    (by
      intro i _ _ h3
      have h0 : i = 0 := by
        simp only [List.length_cons, List.length_nil] at h3
        omega
      subst h0
      exact Or.inl rfl)
  exact ⟨e', h1, h2, h3, by simpa using h4,
    by simpa using h5 0 (by decide) (by decide) (by decide)⟩

/-! Claim theorems for the sample generator. -/

theorem generate_tensorboard_samples_eq (gs : Nat) (gen : Tensor → Tensor)
    (data : Nat → Tensor × Tensor) (n : Nat) :
    generate_tensorboard_samples gs gen data n =
      (List.range n).flatMap (fun i =>
        (if gs = 0 then [⟨realTag i, (data i).2, gs⟩] else []) ++
          [⟨synthTag i, gen (data i).1, gs⟩]) := by
  unfold generate_tensorboard_samples
  rw [List.map_map]
  rw [List.enum_eq_zip_range, List.length_map, List.length_range]
  have hzip : (List.range n).zip
      ((List.range n).map ((fun b => gen b.1) ∘ data)) =
      (List.range n).map (fun i => (i, gen (data i).1)) := by
    have hz := List.zip_map' id ((fun b => gen b.1) ∘ data) (List.range n)
    rw [List.map_id] at hz
    exact hz
  rw [hzip, List.flatMap_map]
  apply List.flatMap_congr
  intro i hi
  have hin : i < n := List.mem_range.mp hi
  have hgetD : ((List.range n).map data).getD i ([], []) = data i := by
    rw [List.getD_eq_getElem _ _ (by simpa using hin)]
    simp
  rw [hgetD]

theorem flatMap_singleton_eq_map (l : List Nat)
    (f : Nat → AudioRecord) : l.flatMap (fun i => [f i]) = l.map f := by
  induction l with
  | nil => rfl
  | cons a t ih => simp [ih]

/-- Claim C9: the sample generator draws exactly n_samples batches (its output
is unchanged when the data stream is modified beyond the first n_samples
positions); it emits 2 records per sample at global step 0 and 1 record
per sample otherwise; at global step 0 each sample contributes both its
ground-truth waveform record and its synthesized record; at every
non-zero global step the output consists of exactly the synthesized
records, one per sample, in order. -/
theorem sample_generator_first_invocation_only (gs : Nat)
    (gen : Tensor → Tensor) (data data' : Nat → Tensor × Tensor)
    (n : Nat) :
    ((∀ i, i < n → data i = data' i) →
      generate_tensorboard_samples gs gen data n =
        generate_tensorboard_samples gs gen data' n) ∧
    (generate_tensorboard_samples gs gen data n).length =
      (if gs = 0 then 2 * n else n) ∧
    (gs = 0 → ∀ i, i < n →
      (⟨realTag i, (data i).2, gs⟩ : AudioRecord) ∈
        generate_tensorboard_samples gs gen data n ∧
      (⟨synthTag i, gen (data i).1, gs⟩ : AudioRecord) ∈
        generate_tensorboard_samples gs gen data n) ∧
    (gs ≠ 0 → generate_tensorboard_samples gs gen data n =
      (List.range n).map (fun i =>
        ⟨synthTag i, gen (data i).1, gs⟩)) := by
  refine ⟨?_, ?_, ?_, ?_⟩
  · intro hagree
    rw [generate_tensorboard_samples_eq, generate_tensorboard_samples_eq]
    apply List.flatMap_congr
    intro i hi
    rw [hagree i (List.mem_range.mp hi)]
  · rw [generate_tensorboard_samples_eq, List.length_flatMap]
    by_cases hgs : gs = 0
    · subst hgs
      trans (List.map (fun _ : Nat => 2) (List.range n)).sum
      · apply congrArg List.sum
        apply List.map_congr_left
        intro i _
        simp
      · simp [List.map_const', List.sum_replicate, smul_eq_mul,
          List.length_range, Nat.mul_comm]
    · trans (List.map (fun _ : Nat => 1) (List.range n)).sum
      · apply congrArg List.sum
        apply List.map_congr_left
        intro i _
        simp [hgs]
      · simp [hgs, List.map_const', List.sum_replicate, smul_eq_mul,
          List.length_range]
  · intro hgs i hin
    constructor
    · rw [generate_tensorboard_samples_eq]
      exact List.mem_flatMap.mpr
        ⟨i, List.mem_range.mpr hin, by simp [hgs]⟩
    · rw [generate_tensorboard_samples_eq]
      exact List.mem_flatMap.mpr
        ⟨i, List.mem_range.mpr hin, by simp [hgs]⟩
  · intro hgs
    rw [generate_tensorboard_samples_eq]
    simp only [hgs, if_false, List.nil_append]
    exact flatMap_singleton_eq_map _ _

/-- Witness for C9: at global step 5 over a constant stream, two samples
produce exactly the two synthesized records and nothing else. -/
theorem sample_generator_first_invocation_only_witness :
    (generate_tensorboard_samples 5 (fun t => t)
      (fun _ => ([], [])) 2).length = 2 ∧
    generate_tensorboard_samples 5 (fun t => t) (fun _ => ([], [])) 2 =
      (List.range 2).map (fun i => ⟨synthTag i, [], 5⟩) := by
  have h := sample_generator_first_invocation_only 5 (fun t => t)
    (fun _ => ([], [])) (fun _ => ([], [])) 2
  exact ⟨by simpa using h.2.1, by simpa using h.2.2.2 (by decide)⟩

/-! Claim theorem for the validation runner. -/

/-- Claim C10: for every non-empty validation set whose batches all report the
loss key set consisting of a and b, the validation runner emits exactly
two metric records, valid/a and valid/b, in that (ascending) order, each
equal to the arithmetic mean of the respective per-batch values. -/
theorem validation_metrics_mean_two_keys
    (batches : List (Tensor × Tensor))
    (vloss : Tensor × Tensor → LossDict) (hne : batches ≠ [])
    (hkeys : ∀ b ∈ batches, (vloss b).map Prod.fst = ["a", "b"] ∨
      (vloss b).map Prod.fst = ["b", "a"]) :
    compute_validation_metrics batches vloss =
      [("valid/a",
        (batches.map (fun b => lookupLoss "a" (vloss b))).sum /
          (batches.length : ℚ)),
       ("valid/b",
        (batches.map (fun b => lookupLoss "b" (vloss b))).sum /
          (batches.length : ℚ))] := by
  cases batches with
  | nil => exact absurd rfl hne
  | cons b0 rest =>
    have hsort : sortStrings ((vloss b0).map Prod.fst) = ["a", "b"] := by
      rcases hkeys b0 (by simp) with hk | hk
      · rw [hk]; decide
      · rw [hk]; decide
    show compute_validation_metrics (b0 :: rest) vloss = _
    unfold compute_validation_metrics
    simp only [List.map_cons]
    rw [hsort]
    simp only [List.map_cons, List.map_nil, List.map_map,
      List.length_map, List.length_cons]
    rw [show ("valid/" ++ "a") = "valid/a" from rfl,
      show ("valid/" ++ "b") = "valid/b" from rfl]
    rfl

/-- Witness for C10: two constant batches reporting b equal to 2 and a
equal to 1 yield exactly the records valid/a with value 1 and valid/b
with value 2, in ascending key order. -/
theorem validation_metrics_mean_two_keys_witness :
    compute_validation_metrics [(([] : Tensor), ([] : Tensor)), ([], [])]
        (fun _ => [("b", (2 : ℚ)), ("a", 1)]) =
      [("valid/a", 1), ("valid/b", 2)] := by
  have h := validation_metrics_mean_two_keys
    [(([] : Tensor), ([] : Tensor)), ([], [])]
    (fun _ => [("b", (2 : ℚ)), ("a", 1)]) (by simp)
    (by intro b _; right; rfl)
  rw [h]
  simp only [List.map_cons, List.map_nil,
    show lookupLoss "a" [("b", (2 : ℚ)), ("a", 1)] = 1 from rfl,
    show lookupLoss "b" [("b", (2 : ℚ)), ("a", 1)] = 2 from rfl,
    List.sum_cons, List.sum_nil, List.length_cons, List.length_nil]
  norm_num
